import Mathlib

/-!
Shallow embedding of the repository acquisition and conversion pipeline
from tutorials/dapt-curation/download_github.py.

Paths are modelled as lists of components (free of the separator), so that
the hidden-component check of the walker, which in the code splits the
joined path on the separator, becomes a check on the component list.
Byte buffers are lists of naturals.  The statistical encoding detector and
the per-encoding byte decoder are external collaborators (the cchardet
library and the codec machinery), so they enter as an oracle structure;
the filesystem read and stat operations likewise, with an error case that
models a raised OSError propagating out of the function.
-/

/-- The static extension/filename table of the classifier, in source order. -/
def SUPPORTED_EXTENSIONS_TO_CATEGORY : List (String × String) :=
  [ (".vx", "Viva"), (".vxh", "Viva"),
    (".v", "VerilogVHDL"), (".vh", "VerilogVHDL"), (".vhdl", "VerilogVHDL"),
    (".va", "VerilogAnalog"),
    (".c", "CPP"), (".cpp", "CPP"), (".h", "CPP"), (".hpp", "CPP"),
    (".py", "Python"),
    (".config", "Config"),
    (".mk", "Makefile"), ("makefile", "Makefile"), ("makeppfile", "Makefile"),
    (".pm", "Perl"), (".pl", "Perl"),
    (".tcl", "Tcl"),
    (".spec", "Spec"),
    (".yaml", "Yaml"), (".yml", "Yaml"),
    (".sp", "Spice"), (".cir", "Spice"), (".cmd", "Spice"), (".spf", "Spice"), (".spice", "Spice"),
    (".txt", "text"), (".json", "text"), (".xml", "text"), (".html", "text"),
    (".pdf", "text"), (".md", "text"),
    ("", "text") ]

/-- Dictionary lookup in the classifier table (keys are unique). -/
def lookupCategory (key : String) : Option String :=
  (SUPPORTED_EXTENSIONS_TO_CATEGORY.find? (fun kv => kv.1 == key)).map (fun kv => kv.2)

/-- os.path.splitext on a basename (no separators): the extension starts at
the last dot, unless every character before that dot is itself a dot, in
which case the extension is empty. -/
def splitextList (l : List Char) : List Char × List Char :=
  let r := l.reverse
  let extR := r.takeWhile (fun c => c ≠ '.')
  match r.drop extR.length with
  | [] => (l, [])
  | _ :: stemR =>
    if stemR.any (fun c => c ≠ '.') then (stemR.reverse, '.' :: extR.reverse)
    else (l, [])

/-- Python str.lower restricted to ASCII, applied characterwise
(Char.toLower of the core library is exactly the ASCII case map). -/
def strLower (s : String) : String :=
  String.mk (s.toList.map Char.toLower)

/-- The two-step category resolution of convert_file_to_json: the
extension is looked up first; only when the extension is absent from the
table is the bare stem looked up. -/
def categoryFor (ext : String) (filename_no_ext : String) : Option String :=
  match lookupCategory ext with
  | some c => some c
  | none => lookupCategory filename_no_ext

/-- The classifier: split the filename, lower both halves, resolve. -/
def classifyFilename (filename : String) : Option String :=
  let p := splitextList filename.toList
  categoryFor (String.mk (p.2.map Char.toLower)) (String.mk (p.1.map Char.toLower))

/-- The record emitted by convert_file_to_json for an eligible file. -/
structure DocumentRecord where
  id : String
  text : String
  file_extension : String
  category : String
  line_count : Nat
  size_in_bytes : Nat
  path : String
deriving DecidableEq, Repr

/-- Oracle for the external encoding machinery: detect models
cchardet.detect (none when no encoding is inferred), decode models
bytes.decode under a named encoding (none models UnicodeDecodeError). -/
structure DecodeEnv where
  detect : List Nat → Option String
  decode : List Nat → String → Option String

/-- Oracle for the filesystem: read models open plus full read, getsize
models os.path.getsize; the error case models a raised OSError. -/
structure FileSys where
  read : List String → Except String (List Nat)
  getsize : List String → Except String Nat

/-- os.path.join over components. -/
def joinPath (parts : List String) : String :=
  String.intercalate "/" parts

/-- Python content.count of the newline character. -/
def countNewlines (s : String) : Nat :=
  s.toList.count '\n'

/-- Python s.startswith with the hidden-path marker: true exactly when
the first character is the dot. -/
def startsWithDot (s : String) : Bool :=
  match s.toList with
  | [] => false
  | c :: _ => c == '.'

/-- Embedding of convert_file_to_json: classify from the basename, read
the bytes, infer an encoding, decode, stat, and assemble the record; the
eligibility failures (unknown category, no inferred encoding, decode
error) yield ok none, while read/stat failures propagate as errors. -/
def convert_file_to_json (env : DecodeEnv) (fs : FileSys) (input_fp : List String) :
    Except String (Option DocumentRecord) :=
  let filename := (input_fp.getLast?).getD ""
  let p := splitextList filename.toList
  let filename_no_ext := String.mk (p.1.map Char.toLower)
  let ext := String.mk (p.2.map Char.toLower)
  match categoryFor ext filename_no_ext with
  | none => Except.ok none
  | some category =>
    match fs.read input_fp with
    | Except.error e => Except.error e
    | Except.ok content =>
      match env.detect content with
      | none => Except.ok none
      | some encoding =>
        match env.decode content encoding with
        | none => Except.ok none
        | some text =>
          match fs.getsize input_fp with
          | Except.error e => Except.error e
          | Except.ok size =>
            Except.ok (some ⟨joinPath input_fp, text, ext, category,
                             countNewlines text + 1, size, joinPath input_fp⟩)

/-- A directory tree: a name, the names of the plain files directly in
it, and its subdirectories.  File bytes live in the FileSys oracle, keyed
by full component path, exactly as the code reads them by path. -/
inductive Dir where
  | mk (name : String) (files : List String) (subdirs : List Dir)

/-- Name of the root of a directory tree. -/
def Dir.name : Dir → String
  | Dir.mk n _ _ => n

mutual
/-- os.walk in top-down order: every directory of the tree paired with
the names of the plain files directly inside it; the emitted root is the
full component path from the given prefix down. -/
def walk (pre : List String) : Dir → List (List String × List String)
  | Dir.mk name files subdirs =>
    (pre ++ [name], files) :: walkList (pre ++ [name]) subdirs
/-- os.walk over a list of sibling subdirectories. -/
def walkList (pre : List String) : List Dir → List (List String × List String)
  | [] => []
  | d :: ds => walk pre d ++ walkList pre ds
end

/-- The inner loop of convert_repo_to_jsonl over the files of one walked
directory: hidden files are skipped, ineligible files contribute nothing,
eligible files contribute their record in walk order, and a read/stat
error propagates. -/
def processFiles (env : DecodeEnv) (fs : FileSys) (root : List String) :
    List String → Except String (List DocumentRecord)
  | [] => Except.ok []
  | f :: rest =>
    if startsWithDot f then processFiles env fs root rest
    else
      match convert_file_to_json env fs (root ++ [f]) with
      | Except.error e => Except.error e
      | Except.ok none => processFiles env fs root rest
      | Except.ok (some r) =>
        match processFiles env fs root rest with
        | Except.error e => Except.error e
        | Except.ok rs => Except.ok (r :: rs)

/-- The outer loop of convert_repo_to_jsonl over the walk entries: a
directory whose full path contains a hidden component is skipped whole;
otherwise its files are processed; records accumulate in production
order; an error propagates at once. -/
def collectDocs (env : DecodeEnv) (fs : FileSys) :
    List (List String × List String) → Except String (List DocumentRecord)
  | [] => Except.ok []
  | entry :: rest =>
    let here :=
      if entry.1.any startsWithDot then Except.ok []
      else processFiles env fs entry.1 entry.2
    match here with
    | Except.error e => Except.error e
    | Except.ok ds =>
      match collectDocs env fs rest with
      | Except.error e => Except.error e
      | Except.ok ds2 => Except.ok (ds ++ ds2)

/-- JSON escaping of one character (the cases that can arise here). -/
def escapeJsonChar (c : Char) : String :=
  if c = '"' then "\\\""
  else if c = '\\' then "\\\\"
  else if c = '\n' then "\\n"
  else String.singleton c

/-- JSON escaping of a string. -/
def escapeJson (s : String) : String :=
  String.join (s.toList.map escapeJsonChar)

/-- A JSON string literal. -/
def jsonStr (s : String) : String :=
  "\"" ++ escapeJson s ++ "\""

/-- json.dumps of one record, fields in the source dictionary order. -/
def serializeDoc (r : DocumentRecord) : String :=
  "\x7b\"id\": " ++ jsonStr r.id ++
  ", \"text\": " ++ jsonStr r.text ++
  ", \"file_extension\": " ++ jsonStr r.file_extension ++
  ", \"category\": " ++ jsonStr r.category ++
  ", \"line_count\": " ++ toString r.line_count ++
  ", \"size_in_bytes\": " ++ toString r.size_in_bytes ++
  ", \"path\": " ++ jsonStr r.path ++ "\x7d"

/-- The artifact body: one serialized record per line, a newline after
each, in production order. -/
def mkArtifact (docs : List DocumentRecord) : String :=
  String.join (docs.map (fun d => serializeDoc d ++ "\n"))

/-- The derived artifact path of a repository. -/
def outputPath (jsonl_dir : String) (repo_name : String) : String :=
  jsonl_dir ++ "/" ++ repo_name ++ ".jsonl"

/-- os.path.exists over the modelled output directory contents. -/
def existsOut (out : List (String × String)) (p : String) : Bool :=
  out.any (fun kv => kv.1 == p)

/-- Embedding of convert_repo_to_jsonl.  The output directory is a list
of (path, bytes) pairs; the result pairs the directory contents after
the call with the exception, if one propagated.  The write of the
artifact happens only after the whole walk collected successfully, as in
the source, so on an error the contents are returned untouched. -/
def convert_repo_to_jsonl (env : DecodeEnv) (fs : FileSys) (pre : List String) (d : Dir)
    (jsonl_dir : String) (out : List (String × String)) :
    List (String × String) × Option String :=
  let output_fp := outputPath jsonl_dir d.name
  if existsOut out output_fp then (out, none)
  else
    match collectDocs env fs (walk pre d) with
    | Except.error e => (out, some e)
    | Except.ok docs => ((output_fp, mkArtifact docs) :: out, none)

/-- os.path.basename: the part after the last separator. -/
def basename (s : String) : String :=
  String.mk ((s.toList.reverse.takeWhile (fun c => c ≠ '/')).reverse)

/-- Oracle for the external clone collaborator: true models a zero exit
status of the version-control client for that url. -/
structure CloneEnv where
  cloneOk : String → Bool

/-- The clone loop of download_github_sources: an entry whose derived
directory already exists is skipped without a clone attempt; otherwise
one clone operation runs, and on failure the entry is merely logged and
skipped.  Returns the directories present afterwards and how many clone
operations were attempted. -/
def cloneLoop (cenv : CloneEnv) (present : List String) :
    List String → List String × Nat
  | [] => (present, 0)
  | url :: rest =>
    let repo_name := basename url
    if present.contains repo_name then cloneLoop cenv present rest
    else if cenv.cloneOk url then
      let r := cloneLoop cenv (present ++ [repo_name]) rest
      (r.1, r.2 + 1)
    else
      let r := cloneLoop cenv present rest
      (r.1, r.2 + 1)

/-- The conversion loop of download_github_sources over the directories
present in the clone root: each is converted in turn; an exception from a
conversion propagates and aborts the remaining iterations, since the
source wraps the call in no handler. -/
def convertLoop (env : DecodeEnv) (fs : FileSys) (trees : String → List String × List Dir)
    (pre : List String) (jsonl_dir : String) (out : List (String × String)) :
    List String → List (String × String) × Option String
  | [] => (out, none)
  | repo :: rest =>
    let r := convert_repo_to_jsonl env fs pre
      (Dir.mk repo (trees repo).1 (trees repo).2) jsonl_dir out
    match r.2 with
    | some e => (r.1, some e)
    | none => convertLoop env fs trees pre jsonl_dir r.1 rest

/-- Python slicing urls[:k] including the negative-cap case. -/
def pySliceTo (k : Int) (l : List String) : List String :=
  if 0 ≤ k then l.take k.toNat else l.take (l.length - (-k).toNat)

/-- The truncation step of download_github_sources: the slice is applied
only when the cap is truthy, that is, present and nonzero. -/
def applyLimit (limit : Option Int) (urls : List String) : List String :=
  match limit with
  | none => urls
  | some k => if k = 0 then urls else pySliceTo k urls

/-- The clone root component path of download_github_sources. -/
def cloneRootParts : List String :=
  ["data", "raw", "github", "repos"]

/-- The output directory of download_github_sources. -/
def jsonlDirPath : String :=
  "data/raw/github/jsonl"

/-- Embedding of download_github_sources after manifest reading: apply
the cap, run the clone loop over the manifest entries, then run the
conversion loop over every directory present in the clone root.  The
trees oracle gives the contents of the directory cloned under each name;
present lists the directories already in the clone root; out is the
output directory contents. -/
def download_github_sources (cenv : CloneEnv) (env : DecodeEnv) (fs : FileSys)
    (trees : String → List String × List Dir) (present : List String)
    (out : List (String × String)) (urls : List String) (limit : Option Int) :
    (List String × Nat) × (List (String × String) × Option String) :=
  let urls2 := applyLimit limit urls
  let cl := cloneLoop cenv present urls2
  (cl, convertLoop env fs trees cloneRootParts jsonlDirPath out cl.1)

/-- Concrete decoder for the C3 scenario: no encoding is ever inferred. -/
def c3Env : DecodeEnv := ⟨fun _ => none, fun _ _ => none⟩

/-- Concrete filesystem for the C3 scenario: one readable byte. -/
def c3Fs : FileSys := ⟨fun _ => Except.ok [255], fun _ => Except.ok 1⟩

/-- Concrete repository for the C4 scenario: a visible file, a hidden
file, a hidden subdirectory with a file inside, a visible subdirectory. -/
def c4Dir : Dir :=
  Dir.mk "repo" ["a.py", ".hidden"]
    [Dir.mk ".git" ["config"] [], Dir.mk "srcdir" ["b.txt"] []]

/-- Concrete decoder for the C4 scenario. -/
def c4Env : DecodeEnv := ⟨fun _ => some "ascii", fun _ _ => some "x"⟩

/-- Concrete filesystem for the C4 scenario. -/
def c4Fs : FileSys := ⟨fun _ => Except.ok [120], fun _ => Except.ok 1⟩

/-- The record the C4 scenario produces for repo/a.py. -/
def c4RecA : DocumentRecord :=
  ⟨"repo/a.py", "x", ".py", "Python", 1, 1, "repo/a.py"⟩

/-- The record the C4 scenario produces for repo/srcdir/b.txt. -/
def c4RecB : DocumentRecord :=
  ⟨"repo/srcdir/b.txt", "x", ".txt", "text", 1, 1, "repo/srcdir/b.txt"⟩

/-- Concrete repository for the C5 scenario. -/
def c5Dir : Dir := Dir.mk "r" [] []

/-- Output directory already holding the artifact of r, for C5. -/
def c5Out : List (String × String) := [("jd/r.jsonl", "x")]

/-- Concrete decoder for the C5 scenario. -/
def c5Env : DecodeEnv := ⟨fun _ => none, fun _ _ => none⟩

/-- Concrete filesystem for the C5 scenario: every access would fail,
which certifies that the skip path touches no file. -/
def c5Fs : FileSys := ⟨fun _ => Except.error "io", fun _ => Except.error "io"⟩

/-- Concrete repository for the C6 scenario: one eligible file. -/
def c6Dir : Dir := Dir.mk "r" ["a.txt"] []

/-- Concrete decoder for the C6 scenario. -/
def c6Env : DecodeEnv := ⟨fun _ => some "ascii", fun _ _ => some "hi\n"⟩

/-- Concrete filesystem for the C6 scenario. -/
def c6Fs : FileSys := ⟨fun _ => Except.ok [104, 105, 10], fun _ => Except.ok 3⟩

/-- The record the C6 scenario produces for r/a.txt. -/
def c6Rec : DocumentRecord :=
  ⟨"r/a.txt", "hi\n", ".txt", "text", 2, 3, "r/a.txt"⟩

/-- Concrete decoder for the C7 scenario: the empty buffer decodes to
the empty string under the inferred encoding. -/
def c7Env : DecodeEnv := ⟨fun _ => some "ascii", fun _ _ => some ""⟩

/-- Concrete filesystem for the C7 scenario: an empty file of size 0. -/
def c7Fs : FileSys := ⟨fun _ => Except.ok [], fun _ => Except.ok 0⟩

/-- The record the C7 scenario produces for the empty file r/empty. -/
def c7Rec : DocumentRecord :=
  ⟨"r/empty", "", "", "text", 1, 0, "r/empty"⟩

/-- Clone oracle for the C2 counterexample: every clone succeeds. -/
def c2CloneAll : CloneEnv := ⟨fun _ => true⟩

/-- Decoder for the C2 scenarios. -/
def c2Env : DecodeEnv := ⟨fun _ => some "ascii", fun _ _ => some ""⟩

/-- Filesystem for the C2 counterexample: reading the one file of the
repository a raises, everything else succeeds. -/
def c2Fs : FileSys :=
  ⟨fun p => if p = ["data", "raw", "github", "repos", "a", "f.py"]
            then Except.error "denied" else Except.ok [],
   fun _ => Except.ok 0⟩

/-- Cloned contents for the C2 scenarios: every repository holds the
single file f.py. -/
def c2Trees : String → List String × List Dir := fun _ => (["f.py"], [])

/-- Clone oracle for the C2 witness: the clone of entry org/b fails. -/
def c2CloneB : CloneEnv := ⟨fun u => !(u == "org/b")⟩

/-- Empty cloned contents for the C2 witness conversion phase. -/
def c2TreesEmpty : String → List String × List Dir := fun _ => ([], [])

/-- Trivial clone oracle for the C9 and C10 witnesses. -/
def c9Clone : CloneEnv := ⟨fun _ => true⟩

/-- Trivial decoder for the C9 and C10 witnesses. -/
def c9Env : DecodeEnv := ⟨fun _ => none, fun _ _ => none⟩

/-- Trivial filesystem for the C9 and C10 witnesses. -/
def c9Fs : FileSys := ⟨fun _ => Except.error "io", fun _ => Except.error "io"⟩

/-- Empty cloned contents for the C9 and C10 witnesses. -/
def c9Trees : String → List String × List Dir := fun _ => ([], [])

/-- Packing a small scalar value into a character keeps its value. -/
theorem toNat_Char_ofNat_of_lt (n : Nat) (h : n < 55296) : (Char.ofNat n).toNat = n := by
  have hv : n.isValidChar := Or.inl h
  rw [Char.ofNat, dif_pos hv]
  rfl

/-- The ASCII case map sends no character to the dot, and fixes it. -/
theorem toLower_eq_dot_iff (c : Char) : Char.toLower c = '.' ↔ c = '.' := by
  constructor
  · intro h
    by_cases hc : c.toNat ≥ 65 ∧ c.toNat ≤ 90
    · exfalso
      have h1 : Char.toLower c = Char.ofNat (c.toNat + 32) := by
        simp [Char.toLower, hc]
      rw [h1] at h
      have h2 : (Char.ofNat (c.toNat + 32)).toNat = c.toNat + 32 :=
        toNat_Char_ofNat_of_lt _ (by omega)
      rw [h] at h2
      have h3 : ('.').toNat = 46 := rfl
      omega
    · have h1 : Char.toLower c = c := by
        simp [Char.toLower]
        omega
      rwa [h1] at h
  · intro h
    subst h
    rfl

/-- The ASCII case map is idempotent. -/
theorem toLower_idem (c : Char) : Char.toLower (Char.toLower c) = Char.toLower c := by
  by_cases hc : c.toNat ≥ 65 ∧ c.toNat ≤ 90
  · have h1 : Char.toLower c = Char.ofNat (c.toNat + 32) := by
      simp [Char.toLower, hc]
    have h2 : (Char.ofNat (c.toNat + 32)).toNat = c.toNat + 32 :=
      toNat_Char_ofNat_of_lt _ (by omega)
    rw [h1]
    simp [Char.toLower, h2]
    omega
  · have h1 : Char.toLower c = c := by
      simp [Char.toLower]
      omega
    rw [h1]
    exact h1

/-- Unpacking a packed character list is the identity. -/
theorem toList_mk (l : List Char) : (String.mk l).toList = l := rfl

/-- Repacking the character list of a string is the identity. -/
theorem mk_toList (s : String) : String.mk s.toList = s := rfl

/-- The dot test composed with the case map is the dot test. -/
theorem decide_ne_dot_toLower (c : Char) :
    (decide (Char.toLower c ≠ '.')) = (decide (c ≠ '.')) :=
  decide_eq_decide.mpr (not_congr (toLower_eq_dot_iff c))


/-- Splitting off the extension commutes with characterwise lowering,
because lowering moves no dot. -/
theorem splitextList_map_toLower (l : List Char) :
    splitextList (l.map Char.toLower)
      = ((splitextList l).1.map Char.toLower, (splitextList l).2.map Char.toLower) := by
  have hq : ∀ m : List Char,
      (m.takeWhile ((fun c => decide (c ≠ '.')) ∘ Char.toLower))
        = m.takeWhile (fun c => decide (c ≠ '.')) := by
    intro m
    congr 1
    funext c
    exact decide_ne_dot_toLower c
  have hA : ∀ m : List Char,
      (m.any ((fun c => decide (c ≠ '.')) ∘ Char.toLower))
        = m.any (fun c => decide (c ≠ '.')) := by
    intro m
    congr 1
    funext c
    exact decide_ne_dot_toLower c
  simp only [splitextList, ← List.map_reverse, List.takeWhile_map, hq, List.length_map,
    ← List.map_drop]
  cases h : l.reverse.drop (l.reverse.takeWhile (fun c => decide (c ≠ '.'))).length with
  | nil => simp
  | cons c stemR =>
    simp only [List.map_cons, List.any_map, hA]
    have hdot : Char.toLower '.' = '.' := rfl
    by_cases hB : (stemR.any fun c => decide (c ≠ '.')) = true
    · simp only [if_pos hB]
      simp [hdot, ← List.map_reverse]
    · simp only [if_neg hB]
      simp

/-- Classification is invariant under lowering the whole filename first. -/
theorem classifyFilename_lower_invariant (l : List Char) :
    classifyFilename (String.mk (l.map Char.toLower)) = classifyFilename (String.mk l) := by
  have hidem : Char.toLower ∘ Char.toLower = Char.toLower := funext toLower_idem
  simp only [classifyFilename, toList_mk, splitextList_map_toLower, List.map_map, hidem]

/-- Claim C8: for all filenames, classification by
convert_file_to_json is deterministic (it is a function of the filename)
and case-insensitive: two filenames with the same ASCII lowering receive
the same category, known extension or not. -/
theorem classification_case_insensitive (s t : String) (h : strLower s = strLower t) :
    classifyFilename s = classifyFilename t := by
  have hs : ∀ u : String, classifyFilename (strLower u) = classifyFilename u := by
    intro u
    have := classifyFilename_lower_invariant u.toList
    rwa [mk_toList] at this
  calc classifyFilename s = classifyFilename (strLower s) := (hs s).symm
    _ = classifyFilename (strLower t) := by rw [h]
    _ = classifyFilename t := hs t

/-- Witness for C8 at the pair of the spec scenario. -/
theorem classification_case_insensitive_witness :
    classifyFilename "FOO.PY" = classifyFilename "foo.py"
    ∧ classifyFilename "foo.py" = some "Python" :=
  ⟨classification_case_insensitive "FOO.PY" "foo.py" (by decide), by decide⟩

/-- Claim C1 evaluation: the code classifies a file named makefile as
text through the no-extension sentinel, although its own table carries
the entry mapping the name makefile to the Makefile category; that stem
entry is reached only when the extension is nonempty and unknown, as the
third conjunct shows. -/
theorem makefile_classified_text_not_makefile :
    classifyFilename "makefile" = some "text"
    ∧ lookupCategory "makefile" = some "Makefile"
    ∧ classifyFilename "makefile.bak" = some "Makefile" :=
  ⟨by decide, by decide, by decide⟩

/-- Claim C5: when the derived artifact already exists in the output
directory, the Walker/Converter is a no-op: for every decoder and
filesystem oracle the call returns the output directory unchanged and no
exception, and since the result is one fixed value for all oracles, the
run performs zero file reads. -/
theorem walker_skip_existing_artifact_noop (pre : List String) (d : Dir)
    (jsonl_dir : String) (out : List (String × String))
    (h : existsOut out (outputPath jsonl_dir d.name) = true) :
    ∀ (env : DecodeEnv) (fs : FileSys),
      convert_repo_to_jsonl env fs pre d jsonl_dir out = (out, none) := by
  intro env fs
  unfold convert_repo_to_jsonl
  simp [h]

/-- Witness for C5: with the artifact of r present and a filesystem
whose every access raises, the second run changes nothing. -/
theorem walker_skip_existing_artifact_noop_witness :
    convert_repo_to_jsonl c5Env c5Fs [] c5Dir "jd" c5Out = (c5Out, none) :=
  walker_skip_existing_artifact_noop [] c5Dir "jd" c5Out (by decide) c5Env c5Fs

/-- Claim C6: with the artifact absent, the Walker/Converter writes the
artifact only after the entire walk collected successfully, and then the
artifact holds the full record collection, one JSON object per line in
production order; if the walk raises, the output directory is untouched
and no artifact appears. -/
theorem artifact_written_only_after_full_walk (env : DecodeEnv) (fs : FileSys)
    (pre : List String) (d : Dir) (jsonl_dir : String) (out : List (String × String))
    (h : existsOut out (outputPath jsonl_dir d.name) = false) :
    (∀ e, collectDocs env fs (walk pre d) = Except.error e →
        convert_repo_to_jsonl env fs pre d jsonl_dir out = (out, some e))
    ∧ (∀ docs, collectDocs env fs (walk pre d) = Except.ok docs →
        convert_repo_to_jsonl env fs pre d jsonl_dir out
          = ((outputPath jsonl_dir d.name, mkArtifact docs) :: out, none)) := by
  constructor
  · intro e he
    unfold convert_repo_to_jsonl
    simp [h, he]
  · intro docs hd
    unfold convert_repo_to_jsonl
    simp [h, hd]

/-- Witness for C6: one eligible file, empty output directory, the
artifact appears with exactly that record. -/
theorem artifact_written_only_after_full_walk_witness :
    convert_repo_to_jsonl c6Env c6Fs [] c6Dir "jd" []
      = (("jd/r.jsonl", mkArtifact [c6Rec]) :: [], none) :=
  (artifact_written_only_after_full_walk c6Env c6Fs [] c6Dir "jd" [] (by decide)).2
    [c6Rec] (by rw [show walk [] c6Dir = [(["r"], ["a.txt"])] from by
      simp [walk, walkList, c6Dir]]; rfl)


/-- Claim C7: every record the Document Builder emits has line count
equal to the newline count of the decoded text plus one, and its byte
size is the filesystem-reported size of the path, not a function of the
decoded text. -/
theorem record_line_count_and_size (env : DecodeEnv) (fs : FileSys)
    (fp : List String) (r : DocumentRecord)
    (h : convert_file_to_json env fs fp = Except.ok (some r)) :
    r.line_count = countNewlines r.text + 1 ∧ fs.getsize fp = Except.ok r.size_in_bytes := by
  simp only [convert_file_to_json] at h
  split at h
  · exact absurd h (by simp)
  · split at h
    · exact absurd h (by simp)
    · split at h
      · exact absurd h (by simp)
      · split at h
        · exact absurd h (by simp)
        · split at h
          · exact absurd h (by simp)
          next size hsize =>
            simp only [Except.ok.injEq, Option.some.injEq] at h
            subst h
            exact ⟨rfl, hsize⟩

/-- Witness for C7 at the empty-file scenario: the empty buffer decodes
to the empty string and the record is accepted with line count one and
size zero. -/
theorem record_line_count_and_size_witness :
    (c7Rec.line_count = countNewlines c7Rec.text + 1
      ∧ c7Fs.getsize ["r", "empty"] = Except.ok c7Rec.size_in_bytes)
    ∧ (c7Rec.line_count = 1 ∧ c7Rec.size_in_bytes = 0) :=
  ⟨record_line_count_and_size c7Env c7Fs ["r", "empty"] c7Rec (by rfl),
    by decide, by decide⟩

/-- Claim C3: given a readable byte buffer, the Document Builder returns
the not-eligible value and raises nothing when no encoding is inferred,
likewise when decoding under the inferred encoding fails, and every
record it does emit carries text obtained by one successful decode under
the inferred encoding, so no fallback encoding and no lossy substitution
is ever attempted. -/
theorem document_builder_rejects_never_raises (env : DecodeEnv) (fs : FileSys)
    (fp : List String) (content : List Nat)
    (hread : fs.read fp = Except.ok content) :
    (env.detect content = none → convert_file_to_json env fs fp = Except.ok none)
    ∧ (∀ enc, env.detect content = some enc → env.decode content enc = none →
        convert_file_to_json env fs fp = Except.ok none)
    ∧ (∀ r, convert_file_to_json env fs fp = Except.ok (some r) →
        ∃ enc, env.detect content = some enc ∧ env.decode content enc = some r.text) := by
  refine ⟨?_, ?_, ?_⟩
  · intro hdet
    simp only [convert_file_to_json, hread, hdet]
    split
    · rfl
    · rfl
  · intro enc hdet hdec
    simp only [convert_file_to_json, hread, hdet, hdec]
    split
    · rfl
    · rfl
  · intro r h
    simp only [convert_file_to_json, hread] at h
    split at h
    · exact absurd h (by simp)
    · split at h
      · exact absurd h (by simp)
      · next enc hdet =>
        split at h
        · exact absurd h (by simp)
        · next text hdec =>
          split at h
          · exact absurd h (by simp)
          · simp only [Except.ok.injEq, Option.some.injEq] at h
            subst h
            exact ⟨enc, hdet, hdec⟩

/-- Witness for C3: a buffer for which no encoding is inferred is
rejected with the not-eligible value. -/
theorem document_builder_rejects_never_raises_witness :
    convert_file_to_json c3Env c3Fs ["r", "x.py"] = Except.ok none :=
  (document_builder_rejects_never_raises c3Env c3Fs ["r", "x.py"] [255] (by rfl)).1 (by rfl)

/-- Every record produced by the file loop of one directory traces to a
file of that directory whose name is not hidden, converted at that
path. -/
theorem processFiles_mem (env : DecodeEnv) (fs : FileSys) (root : List String) :
    ∀ (files : List String) (ds : List DocumentRecord),
      processFiles env fs root files = Except.ok ds →
      ∀ r ∈ ds, ∃ f, f ∈ files ∧ startsWithDot f = false ∧
        convert_file_to_json env fs (root ++ [f]) = Except.ok (some r) := by
  intro files
  induction files with
  | nil =>
    intro ds h r hr
    simp only [processFiles, Except.ok.injEq] at h
    subst h
    cases hr
  | cons f rest ih =>
    intro ds h r hr
    by_cases hf : startsWithDot f
    · rw [processFiles, if_pos hf] at h
      obtain ⟨g, hg1, hg2, hg3⟩ := ih ds h r hr
      exact ⟨g, List.mem_cons_of_mem f hg1, hg2, hg3⟩
    · rw [processFiles, if_neg hf] at h
      cases hc : convert_file_to_json env fs (root ++ [f]) with
      | error e =>
        rw [hc] at h
        exact absurd h (by simp)
      | ok o =>
        cases o with
        | none =>
          rw [hc] at h
          obtain ⟨g, hg1, hg2, hg3⟩ := ih ds h r hr
          exact ⟨g, List.mem_cons_of_mem f hg1, hg2, hg3⟩
        | some r0 =>
          rw [hc] at h
          cases hrest : processFiles env fs root rest with
          | error e =>
            rw [hrest] at h
            exact absurd h (by simp)
          | ok rs =>
            rw [hrest] at h
            simp only [Except.ok.injEq] at h
            subst h
            rcases List.mem_cons.mp hr with h0 | h0
            · subst h0
              exact ⟨f, List.mem_cons_self f rest, by simpa using hf, hc⟩
            · obtain ⟨g, hg1, hg2, hg3⟩ := ih rs hrest r h0
              exact ⟨g, List.mem_cons_of_mem f hg1, hg2, hg3⟩

/-- Every record produced by the walk loop traces to a walk entry whose
full root path has no hidden component and to a file of that entry whose
name is not hidden. -/
theorem collectDocs_mem (env : DecodeEnv) (fs : FileSys) :
    ∀ (entries : List (List String × List String)) (docs : List DocumentRecord),
      collectDocs env fs entries = Except.ok docs →
      ∀ r ∈ docs, ∃ root files, (root, files) ∈ entries ∧
        root.any startsWithDot = false ∧
        ∃ f, f ∈ files ∧ startsWithDot f = false ∧
          convert_file_to_json env fs (root ++ [f]) = Except.ok (some r) := by
  intro entries
  induction entries with
  | nil =>
    intro docs h r hr
    simp only [collectDocs, Except.ok.injEq] at h
    subst h
    cases hr
  | cons entry rest ih =>
    intro docs h r hr
    simp only [collectDocs] at h
    by_cases hhid : entry.1.any startsWithDot = true
    · rw [if_pos hhid] at h
      cases hrest : collectDocs env fs rest with
      | error e =>
        rw [hrest] at h
        exact absurd h (by simp)
      | ok ds2 =>
        rw [hrest] at h
        simp only [Except.ok.injEq, List.nil_append] at h
        subst h
        obtain ⟨root, files, hmem, hroot, hf⟩ := ih ds2 hrest r hr
        exact ⟨root, files, List.mem_cons_of_mem _ hmem, hroot, hf⟩
    · rw [if_neg hhid] at h
      cases hp : processFiles env fs entry.1 entry.2 with
      | error e =>
        rw [hp] at h
        exact absurd h (by simp)
      | ok ds =>
        rw [hp] at h
        cases hrest : collectDocs env fs rest with
        | error e =>
          rw [hrest] at h
          exact absurd h (by simp)
        | ok ds2 =>
          rw [hrest] at h
          simp only [Except.ok.injEq] at h
          subst h
          rcases List.mem_append.mp hr with h0 | h0
          · obtain ⟨f, hf1, hf2, hf3⟩ := processFiles_mem env fs entry.1 entry.2 ds hp r h0
            exact ⟨entry.1, entry.2, List.mem_cons_self _ _, by simpa using hhid, f, hf1, hf2, hf3⟩
          · obtain ⟨root, files, hmem, hroot, hf⟩ := ih ds2 hrest r h0
            exact ⟨root, files, List.mem_cons_of_mem _ hmem, hroot, hf⟩

/-- Claim C4: for every repository tree and every successful walk, every
record of the collection comes from a walk entry whose full root path
contains no component beginning with the hidden marker and from a file
whose name does not begin with it; hence a hidden file, or a file lying
at any depth below a hidden directory (its root then carries that hidden
component), never contributes a record. -/
theorem hidden_paths_never_contribute (env : DecodeEnv) (fs : FileSys)
    (pre : List String) (d : Dir) (docs : List DocumentRecord)
    (h : collectDocs env fs (walk pre d) = Except.ok docs) :
    ∀ r ∈ docs, ∃ root files, (root, files) ∈ walk pre d ∧
      root.any startsWithDot = false ∧
      ∃ f, f ∈ files ∧ startsWithDot f = false ∧
        convert_file_to_json env fs (root ++ [f]) = Except.ok (some r) :=
  collectDocs_mem env fs (walk pre d) docs h

/-- Witness for C4: in a repository with a hidden file, a hidden
subdirectory holding a file, and two visible files, exactly the two
visible files contribute, and the record of a.py traces to a fully
visible location. -/
theorem hidden_paths_never_contribute_witness :
    ∃ root files, (root, files) ∈ walk [] c4Dir ∧
      root.any startsWithDot = false ∧
      ∃ f, f ∈ files ∧ startsWithDot f = false ∧
        convert_file_to_json c4Env c4Fs (root ++ [f]) = Except.ok (some c4RecA) :=
  hidden_paths_never_contribute c4Env c4Fs [] c4Dir [c4RecA, c4RecB]
    (by rw [show walk [] c4Dir
          = [(["repo"], ["a.py", ".hidden"]), (["repo", ".git"], ["config"]),
             (["repo", "srcdir"], ["b.txt"])] from by simp [walk, walkList, c4Dir]]
        rfl)
    c4RecA (by decide)

/-- Directories present before the clone loop are still present after. -/
theorem cloneLoop_mono (cenv : CloneEnv) (a : String) :
    ∀ (urls present : List String), a ∈ present → a ∈ (cloneLoop cenv present urls).1 := by
  intro urls
  induction urls with
  | nil =>
    intro present ha
    simpa [cloneLoop] using ha
  | cons url rest ih =>
    intro present ha
    rw [cloneLoop]
    by_cases h1 : present.contains (basename url)
    · rw [if_pos h1]
      exact ih present ha
    · rw [if_neg h1]
      by_cases h2 : cenv.cloneOk url
      · rw [if_pos h2]
        exact ih (present ++ [basename url]) (List.mem_append_left _ ha)
      · rw [if_neg h2]
        exact ih present ha

/-- Every manifest entry whose clone succeeds ends up present, whatever
happens to the other entries. -/
theorem cloneLoop_clones_successes (cenv : CloneEnv) :
    ∀ (urls present : List String) (v : String), v ∈ urls → cenv.cloneOk v = true →
      basename v ∈ (cloneLoop cenv present urls).1 := by
  intro urls
  induction urls with
  | nil =>
    intro present v hv
    cases hv
  | cons url rest ih =>
    intro present v hv hok
    rw [cloneLoop]
    rcases List.mem_cons.mp hv with h0 | h0
    · subst h0
      by_cases h1 : present.contains (basename v)
      · rw [if_pos h1]
        exact cloneLoop_mono cenv _ rest present (List.elem_iff.mp h1)
      · rw [if_neg h1]
        rw [if_pos hok]
        exact cloneLoop_mono cenv _ rest _
          (List.mem_append_right _ (List.mem_singleton.mpr rfl))
    · by_cases h1 : present.contains (basename url)
      · rw [if_pos h1]
        exact ih present v h0 hok
      · rw [if_neg h1]
        by_cases h2 : cenv.cloneOk url
        · rw [if_pos h2]
          exact ih _ v h0 hok
        · rw [if_neg h2]
          exact ih present v h0 hok

/-- One conversion call never removes an existing output file. -/
theorem convert_repo_fst_superset (env : DecodeEnv) (fs : FileSys) (pre : List String)
    (d : Dir) (jd : String) (out : List (String × String)) (x : String)
    (hx : x ∈ out.map Prod.fst) :
    x ∈ (convert_repo_to_jsonl env fs pre d jd out).1.map Prod.fst := by
  unfold convert_repo_to_jsonl
  by_cases h : existsOut out (outputPath jd d.name)
  · rw [if_pos h]
    exact hx
  · rw [if_neg h]
    cases hc : collectDocs env fs (walk pre d) with
    | error e => exact hx
    | ok docs => exact List.mem_cons_of_mem _ hx

/-- A conversion call that raises no exception leaves the artifact of
the repository present in the output directory. -/
theorem convert_repo_writes (env : DecodeEnv) (fs : FileSys) (pre : List String)
    (d : Dir) (jd : String) (out : List (String × String))
    (h : (convert_repo_to_jsonl env fs pre d jd out).2 = none) :
    outputPath jd d.name ∈ (convert_repo_to_jsonl env fs pre d jd out).1.map Prod.fst := by
  unfold convert_repo_to_jsonl at h ⊢
  by_cases he : existsOut out (outputPath jd d.name)
  · rw [if_pos he]
    simp only [existsOut, List.any_eq_true] at he
    obtain ⟨kv, hkv, hbeq⟩ := he
    simp only [List.mem_map]
    exact ⟨kv, hkv, (eq_of_beq hbeq)⟩
  · rw [if_neg he] at h ⊢
    cases hc : collectDocs env fs (walk pre d) with
    | error e =>
      rw [hc] at h
      exact Option.noConfusion h
    | ok docs => exact List.mem_cons_self _ _

/-- The conversion loop never removes an existing output file. -/
theorem convertLoop_fst_superset (env : DecodeEnv) (fs : FileSys)
    (trees : String → List String × List Dir) (pre : List String) (jd : String) :
    ∀ (repos : List String) (out : List (String × String)) (x : String),
      x ∈ out.map Prod.fst →
      x ∈ (convertLoop env fs trees pre jd out repos).1.map Prod.fst := by
  intro repos
  induction repos with
  | nil =>
    intro out x hx
    simpa [convertLoop] using hx
  | cons repo rest ih =>
    intro out x hx
    rw [convertLoop]
    cases h2 : (convert_repo_to_jsonl env fs pre
        (Dir.mk repo (trees repo).1 (trees repo).2) jd out).2 with
    | some e => exact convert_repo_fst_superset env fs pre _ jd out x hx
    | none => exact ih _ x (convert_repo_fst_superset env fs pre _ jd out x hx)

/-- When the conversion loop finishes without an exception, every listed
repository has its artifact present in the output directory afterwards. -/
theorem convertLoop_converts_all (env : DecodeEnv) (fs : FileSys)
    (trees : String → List String × List Dir) (pre : List String) (jd : String) :
    ∀ (repos : List String) (out : List (String × String)),
      (convertLoop env fs trees pre jd out repos).2 = none →
      ∀ repo ∈ repos,
        outputPath jd repo ∈ (convertLoop env fs trees pre jd out repos).1.map Prod.fst := by
  intro repos
  induction repos with
  | nil =>
    intro out h repo hrepo
    cases hrepo
  | cons r0 rest ih =>
    intro out h repo hrepo
    simp only [convertLoop] at h ⊢
    cases h2 : (convert_repo_to_jsonl env fs pre
        (Dir.mk r0 (trees r0).1 (trees r0).2) jd out).2 with
    | some e =>
      rw [h2] at h
      exact Option.noConfusion h
    | none =>
      rw [h2] at h
      rcases List.mem_cons.mp hrepo with h0 | h0
      · subst h0
        exact convertLoop_fst_superset env fs trees pre jd rest _ _
          (convert_repo_writes env fs pre _ jd out h2)
      · exact ih _ h repo h0

/-- Claim C2 (amended): a clone failure of any one manifest entry
never aborts the remaining entries: every entry whose clone succeeds is
present after the clone loop, whatever other entries fail; and when the
conversion loop raises no exception, every present repository ends up
converted.  A conversion failure, by contrast, propagates out of the
unguarded conversion loop and aborts the remaining conversions, as the
counterexample shows. -/
theorem clone_failures_isolated_conversions_unguarded :
    (∀ (cenv : CloneEnv) (present urls : List String) (v : String),
        v ∈ urls → cenv.cloneOk v = true →
          basename v ∈ (cloneLoop cenv present urls).1)
    ∧ (∀ (env : DecodeEnv) (fs : FileSys) (trees : String → List String × List Dir)
        (pre : List String) (jd : String) (out : List (String × String))
        (repos : List String),
        (convertLoop env fs trees pre jd out repos).2 = none →
        ∀ repo ∈ repos,
          outputPath jd repo ∈ (convertLoop env fs trees pre jd out repos).1.map Prod.fst) :=
  ⟨fun cenv present urls v hv hok => cloneLoop_clones_successes cenv urls present v hv hok,
   fun env fs trees pre jd out repos h repo hrepo =>
     convertLoop_converts_all env fs trees pre jd repos out h repo hrepo⟩

/-- Counterexample to claim C2 as stated: with repositories a and b both
cloned, a read failure while converting a propagates, the orchestrator
stops with the exception, and b — although cloned — is never converted:
no artifact for b exists afterwards. -/
theorem conversion_failure_aborts_remaining :
    (download_github_sources c2CloneAll c2Env c2Fs c2Trees [] [] ["org/a", "org/b"] none).2
      = ([], some "denied")
    ∧ ¬ (outputPath jsonlDirPath "b" ∈
        ((download_github_sources c2CloneAll c2Env c2Fs c2Trees [] []
            ["org/a", "org/b"] none).2.1.map Prod.fst)) := by
  have hw : walk cloneRootParts (Dir.mk "a" (c2Trees "a").1 (c2Trees "a").2)
      = [(["data", "raw", "github", "repos", "a"], ["f.py"])] := by
    simp [walk, walkList, c2Trees, cloneRootParts]
  have hra : convert_repo_to_jsonl c2Env c2Fs cloneRootParts
      (Dir.mk "a" (c2Trees "a").1 (c2Trees "a").2) jsonlDirPath []
      = ([], some "denied") := by
    unfold convert_repo_to_jsonl
    rw [hw]
    rfl
  have hloop : convertLoop c2Env c2Fs c2Trees cloneRootParts jsonlDirPath [] ["a", "b"]
      = ([], some "denied") := by
    simp only [convertLoop, hra]
  have hmain : (download_github_sources c2CloneAll c2Env c2Fs c2Trees [] []
      ["org/a", "org/b"] none).2 = ([], some "denied") := by
    show convertLoop c2Env c2Fs c2Trees cloneRootParts jsonlDirPath []
        (cloneLoop c2CloneAll [] (applyLimit none ["org/a", "org/b"])).1
      = ([], some "denied")
    rw [show (cloneLoop c2CloneAll [] (applyLimit none ["org/a", "org/b"])).1
        = ["a", "b"] from rfl]
    exact hloop
  refine ⟨hmain, ?_⟩
  rw [hmain]
  simp

/-- Witness for the amended C2: with the clone of entry 2 of 3 failing,
entry 3 is still cloned; and a conversion loop over one repository that
raises nothing leaves its artifact present. -/
theorem clone_failures_isolated_conversions_unguarded_witness :
    basename "org/c" ∈ (cloneLoop c2CloneB [] ["org/a", "org/b", "org/c"]).1
    ∧ outputPath "jd" "r1" ∈
        ((convertLoop c2Env c2Fs c2TreesEmpty [] "jd" [] ["r1"]).1.map Prod.fst) :=
  ⟨clone_failures_isolated_conversions_unguarded.1 c2CloneB [] ["org/a", "org/b", "org/c"]
      "org/c" (by decide) rfl,
   clone_failures_isolated_conversions_unguarded.2 c2Env c2Fs c2TreesEmpty [] "jd" [] ["r1"]
      (by
        have hw : walk [] (Dir.mk "r1" (c2TreesEmpty "r1").1 (c2TreesEmpty "r1").2)
            = [(["r1"], [])] := by
          simp [walk, walkList, c2TreesEmpty]
        simp only [convertLoop, convert_repo_to_jsonl, hw]
        rfl)
      "r1" (by decide)⟩

/-- When every manifest entry's directory already exists, the clone loop
changes nothing and attempts zero clone operations. -/
theorem cloneLoop_all_present (cenv : CloneEnv) :
    ∀ (urls present : List String), (∀ u ∈ urls, basename u ∈ present) →
      cloneLoop cenv present urls = (present, 0) := by
  intro urls
  induction urls with
  | nil =>
    intro present _
    rfl
  | cons url rest ih =>
    intro present h
    rw [cloneLoop]
    have h1 : present.contains (basename url) = true :=
      List.elem_eq_true_of_mem (h url (List.mem_cons_self _ _))
    rw [if_pos h1]
    exact ih present (fun u hu => h u (List.mem_cons_of_mem _ hu))

/-- Claim C9: over a manifest whose every entry's derived directory is
already present, the Orchestrator performs zero clone operations, the
directory set is unchanged, and processing proceeds to the conversion
loop over the present repositories. -/
theorem orchestrator_all_present_zero_clones (cenv : CloneEnv) (env : DecodeEnv)
    (fs : FileSys) (trees : String → List String × List Dir)
    (present : List String) (out : List (String × String)) (urls : List String)
    (h : ∀ u ∈ urls, basename u ∈ present) :
    download_github_sources cenv env fs trees present out urls none
      = ((present, 0),
         convertLoop env fs trees cloneRootParts jsonlDirPath out present) := by
  show (cloneLoop cenv present (applyLimit none urls),
        convertLoop env fs trees cloneRootParts jsonlDirPath out
          (cloneLoop cenv present (applyLimit none urls)).1)
      = ((present, 0), convertLoop env fs trees cloneRootParts jsonlDirPath out present)
  rw [show applyLimit none urls = urls from rfl, cloneLoop_all_present cenv urls present h]

/-- Witness for C9: one manifest entry, its directory already present. -/
theorem orchestrator_all_present_zero_clones_witness :
    download_github_sources c9Clone c9Env c9Fs c9Trees ["a"] [] ["org/a"] none
      = ((["a"], 0),
         convertLoop c9Env c9Fs c9Trees cloneRootParts jsonlDirPath [] ["a"]) :=
  orchestrator_all_present_zero_clones c9Clone c9Env c9Fs c9Trees ["a"] [] ["org/a"]
    (by decide)

/-- Claim C10: a cap of zero is falsy, so the manifest is not truncated:
the run is identical to passing no cap; truncation to the first K
entries happens exactly for a positive cap K. -/
theorem zero_cap_no_truncation :
    (∀ (cenv : CloneEnv) (env : DecodeEnv) (fs : FileSys)
        (trees : String → List String × List Dir) (present : List String)
        (out : List (String × String)) (urls : List String),
        download_github_sources cenv env fs trees present out urls (some 0)
          = download_github_sources cenv env fs trees present out urls none)
    ∧ (∀ urls : List String, applyLimit (some 0) urls = urls)
    ∧ (∀ (k : Int) (urls : List String), 0 < k →
        applyLimit (some k) urls = urls.take k.toNat) := by
  refine ⟨?_, ?_, ?_⟩
  · intro cenv env fs trees present out urls
    rfl
  · intro urls
    rfl
  · intro k urls hk
    simp only [applyLimit, pySliceTo]
    rw [if_neg (by omega : ¬ k = 0), if_pos (by omega : (0 : Int) ≤ k)]

/-- Witness for C10: cap zero equals no cap on a concrete run, and a
positive cap takes a prefix. -/
theorem zero_cap_no_truncation_witness :
    (download_github_sources c9Clone c9Env c9Fs c9Trees [] [] ["org/a"] (some 0)
      = download_github_sources c9Clone c9Env c9Fs c9Trees [] [] ["org/a"] none)
    ∧ applyLimit (some 2) ["u", "v", "w"] = (["u", "v", "w"].take ((2 : Int)).toNat) :=
  ⟨zero_cap_no_truncation.1 c9Clone c9Env c9Fs c9Trees [] [] ["org/a"],
   zero_cap_no_truncation.2.2 2 ["u", "v", "w"] (by omega)⟩
